import Mathlib

/-!
# deviceio/embed : packer codec and generated runtime

A shallow embedding of `main.go`: the build-time packer (`main`, `marshalGzipBase64`)
and the runtime that the packer's `codeTemplate` generates (`EmbedSetLocal`,
`EmbedReadFile`, `EmbedWriteFile`, `embedFileSystem.Open`).

Go byte slices are lists of `Fin 256`; Go strings are Lean strings.  The package-level
variables of the generated runtime and the real filesystem are one explicit state that each
operation takes and returns.
-/

set_option maxRecDepth 20000

namespace Embed

/-! ## Bytes -/

/-- One Go `byte`. -/
abbrev Byte := Fin 256

/-- A Go `[]byte`. -/
abbrev Bytes := List Byte

/-- Truncating conversion of a number to a byte, `byte(n)`. -/
def toByte (n : Nat) : Byte := ⟨n % 256, Nat.mod_lt n (by decide)⟩

/-! ## Errors -/

/-- Equality of results is decidable when equality of values and of errors is. -/
instance decEqExcept {ε α : Type} [DecidableEq ε] [DecidableEq α] : DecidableEq (Except ε α)
  | .ok a, .ok b =>
    if h : a = b then isTrue (congrArg Except.ok h)
    else isFalse (fun h2 => h (Except.ok.inj h2))
  | .error a, .error b =>
    if h : a = b then isTrue (congrArg Except.error h)
    else isFalse (fun h2 => h (Except.error.inj h2))
  | .ok _, .error _ => isFalse (fun h2 => Except.noConfusion h2)
  | .error _, .ok _ => isFalse (fun h2 => Except.noConfusion h2)

/-- Errors of the decoding pipeline (`encoding/base64`, `compress/gzip`, `compress/flate`). -/
inductive CodecErr where
  | base64CorruptInput
  | gzipErrHeader
  | gzipErrChecksum
  | unexpectedEOF
  | flateCorruptInput
  deriving DecidableEq, Repr

/-- Error values the generated runtime can hand to a caller.  The five `EmbedErr…` values are
the package-level sentinels of the template (each a distinct `errors.New` value);
`osErrNotExist` is the standard library's `os.ErrNotExist`; `osPathErrNotExist` is the
`*os.PathError` of a real-filesystem lookup that found nothing. -/
inductive EmbedError where
  | EmbedErrInvalid
  | EmbedErrPermission
  | EmbedErrExist
  | EmbedErrNotExist
  | EmbedErrNotAFile
  | osErrNotExist
  | osPathErrNotExist (path : String)
  | codec (e : CodecErr)
  deriving DecidableEq, Repr

/-! ## `encoding/base64`, `StdEncoding` -/

/-- The padding character `=`. -/
def padChar : Byte := 61

/-- Character of a 6-bit value in the standard alphabet
`ABCDEFGHIJKLMNOPQRSTUVWXYZabcdefghijklmnopqrstuvwxyz0123456789+/`. -/
def encodeChar (i : Nat) : Byte :=
  if i < 26 then toByte (65 + i)
  else if i < 52 then toByte (97 + (i - 26))
  else if i < 62 then toByte (48 + (i - 52))
  else if i = 62 then 43
  else 47

/-- The decode map of the standard alphabet: the 6-bit value of a character, if it has one. -/
def decodeChar (c : Byte) : Option Nat :=
  if 65 ≤ c.val ∧ c.val ≤ 90 then some (c.val - 65)
  else if 97 ≤ c.val ∧ c.val ≤ 122 then some (c.val - 97 + 26)
  else if 48 ≤ c.val ∧ c.val ≤ 57 then some (c.val - 48 + 52)
  else if c.val = 43 then some 62
  else if c.val = 47 then some 63
  else none

/-- `StdEncoding` encoding of a whole input, as produced by a `base64.NewEncoder` that is
written to and then closed: 3 bytes become 4 characters, a final group of 1 or 2 bytes is
padded with `=`. -/
def base64Encode : Bytes → Bytes
  | a :: b :: c :: rest =>
    let val := a.val * 65536 + b.val * 256 + c.val
    encodeChar (val / 262144 % 64) :: encodeChar (val / 4096 % 64) ::
      encodeChar (val / 64 % 64) :: encodeChar (val % 64) :: base64Encode rest
  | [a, b] =>
    let val := a.val * 65536 + b.val * 256
    [encodeChar (val / 262144 % 64), encodeChar (val / 4096 % 64),
      encodeChar (val / 64 % 64), padChar]
  | [a] =>
    let val := a.val * 65536
    [encodeChar (val / 262144 % 64), encodeChar (val / 4096 % 64), padChar, padChar]
  | [] => []

/-- Decoding of the quanta of a `StdEncoding` text (newlines already removed): every group
of 4 characters gives 3 bytes, padding is accepted only in the last group, and a character
outside the alphabet or a truncated group is a `CorruptInputError`. -/
def decodeQuanta : Bytes → Except CodecErr Bytes
  | [] => .ok []
  | c0 :: c1 :: c2 :: c3 :: rest =>
    match decodeChar c0, decodeChar c1 with
    | some s0, some s1 =>
      if c2 = padChar then
        if c3 = padChar ∧ rest = [] then
          .ok [toByte ((s0 * 262144 + s1 * 4096) / 65536)]
        else .error .base64CorruptInput
      else
        match decodeChar c2 with
        | none => .error .base64CorruptInput
        | some s2 =>
          if c3 = padChar then
            if rest = [] then
              let val := s0 * 262144 + s1 * 4096 + s2 * 64
              .ok [toByte (val / 65536), toByte (val / 256)]
            else .error .base64CorruptInput
          else
            match decodeChar c3 with
            | none => .error .base64CorruptInput
            | some s3 =>
              let val := s0 * 262144 + s1 * 4096 + s2 * 64 + s3
              match decodeQuanta rest with
              | .ok out => .ok (toByte (val / 65536) :: toByte (val / 256) :: toByte val :: out)
              | .error e => .error e
    | _, _ => .error .base64CorruptInput
  | _ => .error .base64CorruptInput

/-- What a `base64.NewDecoder(base64.StdEncoding, r)` delivers for the whole of `r`: carriage
returns and line feeds are dropped, the rest is decoded quantum by quantum. -/
def base64Decode (s : Bytes) : Except CodecErr Bytes :=
  decodeQuanta (s.filter (fun c => c ≠ 10 ∧ c ≠ 13))

/-! ## `compress/gzip` -/

/-- The `compress/gzip` package, which is not part of the repository: `compress` is what a
`gzip.NewWriter` emits for an input once closed, `decompress` is what reading a
`gzip.NewReader` to the end returns. -/
structure GzipLib where
  compress : Bytes → Bytes
  decompress : Bytes → Except CodecErr Bytes

/-! ## The codec of the packer and of the runtime -/

/-- The function `marshalGzipBase64`: the reader's bytes go through a gzip writer whose output
goes through a base64 encoder into the writer; both are closed, gzip first. -/
def marshalGzipBase64 (gz : GzipLib) (reader : Bytes) : Bytes :=
  base64Encode (gz.compress reader)

/-- The decoding block shared by `EmbedReadFile` and `Open`: a base64 decoder over the record's
data, a gzip reader over that, copied to the end into a buffer. -/
def unmarshalBase64Gzip (gz : GzipLib) (data : Bytes) : Except EmbedError Bytes :=
  match base64Decode data with
  | .error e => .error (.codec e)
  | .ok z =>
    match gz.decompress z with
    | .error e => .error (.codec e)
    | .ok raw => .ok raw

/-! ## A gzip implementation

`storedGzip` writes an RFC 1952 member whose deflate stream consists of stored (uncompressed)
blocks, and reads such members back, checking header, block lengths, CRC-32 and size.  It is
the instance of `GzipLib` at which the theorems are evaluated on concrete data. -/

/-- One bit step of the reflected CRC-32 (polynomial `0xEDB88320`). -/
def crcStep (c : Nat) : Nat :=
  if c % 2 = 1 then (c / 2) ^^^ 0xEDB88320 else c / 2

/-- CRC-32 register after one more byte. -/
def crcByte (crc : Nat) (b : Byte) : Nat :=
  crcStep (crcStep (crcStep (crcStep (crcStep (crcStep (crcStep (crcStep (crc ^^^ b.val))))))))

/-- CRC-32 (IEEE) of a byte sequence. -/
def crc32 (b : Bytes) : Nat :=
  (b.foldl crcByte 0xFFFFFFFF) ^^^ 0xFFFFFFFF

/-- Little-endian 16-bit field. -/
def le16 (n : Nat) : Bytes := [toByte n, toByte (n / 256)]

/-- Little-endian 32-bit field. -/
def le32 (n : Nat) : Bytes :=
  [toByte n, toByte (n / 256), toByte (n / 65536), toByte (n / 16777216)]

/-- The 10-byte member header: magic `1f 8b`, method 8 (deflate), no flags, no mtime, unknown
operating system. -/
def gzipHeader : Bytes := [0x1f, 0x8b, 8, 0, 0, 0, 0, 0, 0, 255]

/-- A deflate stream of stored blocks of at most 65535 bytes each; the last one has `BFINAL`
set. -/
def storedBlocks : Nat → Bytes → Bytes
  | 0, _ => [1, 0, 0, 255, 255]
  | fuel + 1, b =>
    if b.length ≤ 65535 then
      1 :: (le16 b.length ++ le16 (65535 - b.length) ++ b)
    else
      0 :: (le16 65535 ++ le16 0 ++ b.take 65535 ++ storedBlocks fuel (b.drop 65535))

/-- Reads stored blocks up to and including the final one; returns the data and the bytes that
follow the deflate stream. -/
def readStoredBlocks : Nat → Bytes → Except CodecErr (Bytes × Bytes)
  | 0, _ => .error .unexpectedEOF
  | fuel + 1, h :: l0 :: l1 :: n0 :: n1 :: rest =>
    if h.val / 2 % 4 ≠ 0 then .error .flateCorruptInput
    else
      let len := l0.val + 256 * l1.val
      let nlen := n0.val + 256 * n1.val
      if len + nlen ≠ 65535 then .error .flateCorruptInput
      else if rest.length < len then .error .unexpectedEOF
      else if h.val % 2 = 1 then .ok (rest.take len, rest.drop len)
      else
        match readStoredBlocks fuel (rest.drop len) with
        | .error e => .error e
        | .ok (more, tail) => .ok (rest.take len ++ more, tail)
  | _ + 1, _ => .error .unexpectedEOF

/-- Stored-block gzip: writer and reader. -/
def storedGzip : GzipLib where
  compress := fun b =>
    gzipHeader ++ storedBlocks (b.length + 1) b ++ le32 (crc32 b) ++ le32 b.length
  decompress := fun z =>
    match z with
    | m0 :: m1 :: cm :: flg :: _ :: _ :: _ :: _ :: _ :: _ :: body =>
      if m0 ≠ 0x1f ∨ m1 ≠ 0x8b ∨ cm ≠ 8 ∨ flg ≠ 0 then .error .gzipErrHeader
      else
        match readStoredBlocks (body.length + 1) body with
        | .error e => .error e
        | .ok (raw, trailer) =>
          if trailer.length < 8 then .error .unexpectedEOF
          else if trailer = le32 (crc32 raw) ++ le32 raw.length then .ok raw
          else .error .gzipErrChecksum
    | _ => .error .unexpectedEOF

/-! ## `strings.Replace` and `path.Clean` -/

/-- Left-to-right replacement of the non-overlapping occurrences of a non-empty `old`:
`skip` counts the characters of the current occurrence still to drop. -/
def replaceScan (old new : List Char) : Nat → List Char → List Char
  | _, [] => []
  | skip + 1, _ :: cs => replaceScan old new skip cs
  | 0, c :: cs =>
    if old.isPrefixOf (c :: cs) then new ++ replaceScan old new (old.length - 1) cs
    else c :: replaceScan old new 0 cs

/-- The call `strings.Replace(s, old, new, -1)`: every occurrence is replaced; an empty `old`
matches before every character and at the end. -/
def stringsReplaceAll (s old new : String) : String :=
  if old = "" then String.mk (new.data ++ s.data.flatMap (fun c => c :: new.data))
  else String.mk (replaceScan old.data new.data 0 s.data)

/-- Splits at every `/`; `cur` holds the current element reversed. -/
def splitSlash : List Char → List Char → List (List Char)
  | cur, [] => [cur.reverse]
  | cur, c :: cs => if c = '/' then cur.reverse :: splitSlash [] cs else splitSlash (c :: cur) cs

/-- One element of `path.Clean`, on the stack of elements kept so far (top first): empty and `.`
elements vanish, `..` removes the element before it, stays if the path is relative and nothing
but `..` precedes it, and vanishes at the root. -/
def cleanStep (rooted : Bool) (stack : List (List Char)) (elem : List Char) : List (List Char) :=
  if elem = [] ∨ elem = ['.'] then stack
  else if elem = ['.', '.'] then
    match stack with
    | top :: below => if top = ['.', '.'] then elem :: top :: below else below
    | [] => if rooted then [] else [elem]
  else elem :: stack

/-- The function `path.Clean`. -/
def pathClean (p : String) : String :=
  let rooted := p.data.head? = some '/'
  let elems := ((splitSlash [] p.data).foldl (cleanStep rooted) []).reverse
  let body := List.intercalate ['/'] elems
  let out := if rooted then '/' :: body else body
  if out = [] then "." else String.mk out

/-! ## The generated runtime: data -/

/-- The record `embedFileInfo` (its mutex `mu` has no state in a sequential run). -/
structure embedFileInfo where
  path : String
  data : Bytes
  decoded : Bool
  name : String
  size : Int
  mode : Nat
  isDir : Bool
  deriving DecidableEq, Repr

/-- A `bytes.Reader`: the slice it reads and the read offset. -/
structure BytesReader where
  s : Bytes
  i : Nat
  deriving DecidableEq, Repr

/-- The handle `embedFile`; `info` is the record the handle points to, as it is when the handle
is made. -/
structure embedFile where
  reader : BytesReader
  info : embedFileInfo
  deriving DecidableEq, Repr

/-- An `http.File` as returned by `Open`: an `*embedFile`, or an `*os.File` open on a file of
the real filesystem, given by its resolved name and contents. -/
inductive HttpFile where
  | embed (f : embedFile)
  | osFile (name : String) (content : Bytes)
  deriving DecidableEq, Repr

/-- The package-level variables `embedLocalMode`, `embedLocalDir` and `embedFilemap` (a Go map:
an association list read and updated at the first entry of a key), the real filesystem `disk`
(regular files by resolved absolute name), and two counters that record how often the decoding
block and the encoding block of the runtime have been entered. -/
structure Runtime where
  embedLocalMode : Bool
  embedLocalDir : String
  embedFilemap : List (String × embedFileInfo)
  disk : List (String × Bytes)
  decodeRuns : Nat
  encodeRuns : Nat
  deriving DecidableEq, Repr

/-- Map index `embedFilemap[key]` with its `ok` flag. -/
def filemapGet : List (String × embedFileInfo) → String → Option embedFileInfo
  | [], _ => none
  | (k, v) :: rest, key => if k = key then some v else filemapGet rest key

/-- Assignment through the pointer stored under `key`: the record is replaced in place; the
set of keys is untouched. -/
def filemapSet : List (String × embedFileInfo) → String → embedFileInfo →
    List (String × embedFileInfo)
  | [], _, _ => []
  | (k, v) :: rest, key, v' =>
    if k = key then (k, v') :: rest else (k, v) :: filemapSet rest key v'

/-- Contents of the real file that `name` resolves to (names resolve lexically). -/
def diskGet : List (String × Bytes) → String → Option Bytes
  | [], _ => none
  | (k, v) :: rest, name => if k = pathClean name then some v else diskGet rest name

/-- The call `ioutil.ReadFile(name)` on the real filesystem. -/
def ioutilReadFile (disk : List (String × Bytes)) (name : String) : Except EmbedError Bytes :=
  match diskGet disk name with
  | some b => .ok b
  | none => .error (.osPathErrNotExist name)

/-- The call `os.Open(name)` on the real filesystem. -/
def osOpen (disk : List (String × Bytes)) (name : String) : Except EmbedError HttpFile :=
  match diskGet disk name with
  | some b => .ok (.osFile (pathClean name) b)
  | none => .error (.osPathErrNotExist name)

/-- The call `ioutil.WriteFile(name, data, perm)` on the real filesystem: the file is created
or truncated, then written. -/
def ioutilWriteFile (disk : List (String × Bytes)) (name : String) (data : Bytes) :
    List (String × Bytes) :=
  (pathClean name, data) :: disk.filter (fun e => e.1 ≠ pathClean name)

/-! ## The generated runtime: operations -/

/-- The function `EmbedSetLocal`. -/
def EmbedSetLocal (st : Runtime) (path : String) : Runtime :=
  if path = "" then { st with embedLocalMode := false, embedLocalDir := "" }
  else { st with embedLocalMode := true, embedLocalDir := path }

/-- The function `EmbedReadFile`. -/
def EmbedReadFile (gz : GzipLib) (st : Runtime) (path : String) :
    Except EmbedError Bytes × Runtime :=
  if st.embedLocalMode then (ioutilReadFile st.disk path, st)
  else
    match filemapGet st.embedFilemap path with
    | none => (.error .EmbedErrNotExist, st)
    | some fi =>
      if fi.isDir then (.error .EmbedErrNotAFile, st)
      else if fi.decoded then (.ok fi.data, st)
      else (unmarshalBase64Gzip gz fi.data, { st with decodeRuns := st.decodeRuns + 1 })

/-- The function `EmbedWriteFile`; `none` is the `nil` error. -/
def EmbedWriteFile (gz : GzipLib) (st : Runtime) (filename : String) (data : Bytes) :
    Option EmbedError × Runtime :=
  if st.embedLocalMode then (none, { st with disk := ioutilWriteFile st.disk filename data })
  else
    match filemapGet st.embedFilemap filename with
    | none => (some .EmbedErrNotExist, st)
    | some fi =>
      if fi.isDir then (some .EmbedErrNotAFile, st)
      else if fi.decoded then
        (none, { st with embedFilemap := filemapSet st.embedFilemap filename { fi with data := data } })
      else
        (none, { st with
          embedFilemap := filemapSet st.embedFilemap filename
            { fi with data := marshalGzipBase64 gz data, decoded := false },
          encodeRuns := st.encodeRuns + 1 })

/-- The method `embedFileSystem.Open`. -/
def Open (gz : GzipLib) (st : Runtime) (name : String) : Except EmbedError HttpFile × Runtime :=
  if st.embedLocalMode then (osOpen st.disk (st.embedLocalDir ++ "/" ++ name), st)
  else
    match filemapGet st.embedFilemap name with
    | none => (.error .osErrNotExist, st)
    | some f =>
      if !f.decoded && !f.isDir then
        match unmarshalBase64Gzip gz f.data with
        | .error e => (.error e, { st with decodeRuns := st.decodeRuns + 1 })
        | .ok raw =>
          let f' := { f with data := raw, decoded := true }
          (.ok (.embed { reader := { s := raw, i := 0 }, info := f' }),
            { st with embedFilemap := filemapSet st.embedFilemap name f',
                      decodeRuns := st.decodeRuns + 1 })
      else (.ok (.embed { reader := { s := f.data, i := 0 }, info := f }), st)

/-- The method `embedFile.Read` for a buffer of `n` bytes: the bytes copied (`none` is
`io.EOF`: nothing left) and the handle with its offset advanced. -/
def embedFile.Read (t : embedFile) (n : Nat) : Option Bytes × embedFile :=
  if t.reader.s.length ≤ t.reader.i then (none, t)
  else
    let out := (t.reader.s.drop t.reader.i).take n
    (some out, { t with reader := { t.reader with i := t.reader.i + out.length } })

/-! ## The packer -/

/-- The `os.FileInfo` of a visited entry, as far as the packer reads it. -/
structure FileInfo where
  name : String
  size : Int
  mode : Nat
  isDir : Bool
  deriving DecidableEq, Repr

/-- One call of the `filepath.Walk` callback: the path handed in, the entry's info, and the
bytes that opening and reading the entry gives (used for files only). -/
structure WalkEntry where
  fpath : String
  info : FileInfo
  content : Bytes
  deriving DecidableEq, Repr

/-- The struct `filemapValueTemplateVars`: the values of one emitted map entry. -/
structure filemapValueTemplateVars where
  FilePath : String
  FileSize : Int
  FileMode : Nat
  FileData : Bytes
  FileName : String
  FileIsDir : Bool
  deriving DecidableEq, Repr

/-- The key computed in the callback: `strings.Replace(fpath, dir, "/", -1)`, then
`path.Clean`. -/
def finalPath (dir fpath : String) : String :=
  pathClean (stringsReplaceAll fpath dir "/")

/-- The body of the `filepath.Walk` callback for an entry visited without error: backslashes
become slashes, an entry whose name is `file` is passed over, every other entry yields one
record. -/
def walkFn (gz : GzipLib) (dir file : String) (e : WalkEntry) :
    Option filemapValueTemplateVars :=
  let fpath := stringsReplaceAll e.fpath "\\" "/"
  if e.info.name = file then none
  else
    some {
      FilePath := finalPath dir fpath
      FileName := e.info.name
      FileSize := e.info.size
      FileMode := e.info.mode % 4294967296
      FileData := if !e.info.isDir then marshalGzipBase64 gz e.content else []
      FileIsDir := e.info.isDir }

/-- The records `main` appends to the generated file, in order, for a walk that visits
`entries`; nothing is walked when `-embed` is off. -/
def packer (gz : GzipLib) (flagEmbed : Bool) (dir file : String) (entries : List WalkEntry) :
    List filemapValueTemplateVars :=
  if flagEmbed then entries.filterMap (walkFn gz dir file) else []

/-! ## Calls of the runtime interface -/

/-- A call of one of the four operations of the generated interface. -/
inductive Call where
  | openFile (name : String)
  | readFile (path : String)
  | writeFile (filename : String) (data : Bytes)
  | setLocal (path : String)
  deriving DecidableEq, Repr

/-- The state after a call. -/
def Call.run (gz : GzipLib) (st : Runtime) : Call → Runtime
  | .openFile name => (Open gz st name).2
  | .readFile path => (EmbedReadFile gz st path).2
  | .writeFile filename data => (EmbedWriteFile gz st filename data).2
  | .setLocal path => EmbedSetLocal st path

/-- The path a call addresses in the store, if any. -/
def Call.target : Call → Option String
  | .openFile name => some name
  | .readFile path => some path
  | .writeFile filename _ => some filename
  | .setLocal _ => none

/-! ## Concrete data -/

/-- The bytes of `hello`. -/
def helloBytes : Bytes := [104, 101, 108, 108, 111]

/-- The bytes of `local`. -/
def localBytes : Bytes := [108, 111, 99, 97, 108]

/-- A byte sequence with a NUL in it. -/
def binaryBytes : Bytes := [0, 255, 104, 0]

/-- The record that the packer emits for a file `a.txt` holding `hello`, as loaded at program
start (the generated literal sets neither `path` nor `decoded`). -/
def helloRecord : embedFileInfo :=
  { path := "", data := marshalGzipBase64 storedGzip helloBytes, decoded := false,
    name := "a.txt", size := 5, mode := 420, isDir := false }

/-- The record of the root directory. -/
def rootRecord : embedFileInfo :=
  { path := "", data := [], decoded := false, name := "www", size := 4096, mode := 2147484141,
    isDir := true }

/-- A freshly started program in embedded mode with two records, next to a real filesystem
whose `/srv/a.txt` holds `local`. -/
def sampleRuntime : Runtime :=
  { embedLocalMode := false, embedLocalDir := "",
    embedFilemap := [("/", rootRecord), ("/a.txt", helloRecord)],
    disk := [("/srv/a.txt", localBytes)],
    decodeRuns := 0, encodeRuns := 0 }

/-- A walk of the tree `/r` = { `embed.go`, `sub/embed.go` }, in walk order. -/
def sampleWalk : List WalkEntry :=
  [ { fpath := "/r", info := { name := "r", size := 4096, mode := 2147484141, isDir := true },
      content := [] },
    { fpath := "/r/embed.go", info := { name := "embed.go", size := 5, mode := 420, isDir := false },
      content := helloBytes },
    { fpath := "/r/sub", info := { name := "sub", size := 4096, mode := 2147484141, isDir := true },
      content := [] },
    { fpath := "/r/sub/embed.go",
      info := { name := "embed.go", size := 5, mode := 420, isDir := false },
      content := localBytes } ]

/-! ## Library facts: base64 -/

theorem decodeChar_encodeChar (i : Nat) : decodeChar (encodeChar (i % 64)) = some (i % 64) := by
  have hi : i % 64 < 64 := Nat.mod_lt _ (by decide)
  generalize i % 64 = j at hi
  interval_cases j <;> rfl

theorem encodeChar_ne_pad (i : Nat) : encodeChar (i % 64) ≠ padChar := by
  have hi : i % 64 < 64 := Nat.mod_lt _ (by decide)
  generalize i % 64 = j at hi
  interval_cases j <;> decide

theorem encodeChar_ne_lf (i : Nat) : encodeChar (i % 64) ≠ 10 := by
  have hi : i % 64 < 64 := Nat.mod_lt _ (by decide)
  generalize i % 64 = j at hi
  interval_cases j <;> decide

theorem encodeChar_ne_cr (i : Nat) : encodeChar (i % 64) ≠ 13 := by
  have hi : i % 64 < 64 := Nat.mod_lt _ (by decide)
  generalize i % 64 = j at hi
  interval_cases j <;> decide

theorem base64Encode_no_newline (b : Bytes) :
    ∀ c ∈ base64Encode b, c ≠ 10 ∧ c ≠ 13 := by
  induction b using base64Encode.induct with
  | case1 a b c rest ih =>
    intro x hx
    simp only [base64Encode, List.mem_cons] at hx
    rcases hx with h | h | h | h | h
    · exact h ▸ ⟨encodeChar_ne_lf _, encodeChar_ne_cr _⟩
    · exact h ▸ ⟨encodeChar_ne_lf _, encodeChar_ne_cr _⟩
    · exact h ▸ ⟨encodeChar_ne_lf _, encodeChar_ne_cr _⟩
    · exact h ▸ ⟨encodeChar_ne_lf _, encodeChar_ne_cr _⟩
    · exact ih x h
  | case2 a b =>
    intro x hx
    simp only [base64Encode, List.mem_cons, List.mem_singleton, List.not_mem_nil, or_false] at hx
    rcases hx with h | h | h | h
    · exact h ▸ ⟨encodeChar_ne_lf _, encodeChar_ne_cr _⟩
    · exact h ▸ ⟨encodeChar_ne_lf _, encodeChar_ne_cr _⟩
    · exact h ▸ ⟨encodeChar_ne_lf _, encodeChar_ne_cr _⟩
    · subst h; decide
  | case3 a =>
    intro x hx
    simp only [base64Encode, List.mem_cons, List.mem_singleton, List.not_mem_nil, or_false] at hx
    rcases hx with h | h | h | h
    · exact h ▸ ⟨encodeChar_ne_lf _, encodeChar_ne_cr _⟩
    · exact h ▸ ⟨encodeChar_ne_lf _, encodeChar_ne_cr _⟩
    · subst h; decide
    · subst h; decide
  | case4 =>
    intro x hx
    simp [base64Encode] at hx

theorem base64Encode_filter (b : Bytes) :
    (base64Encode b).filter (fun c => c ≠ 10 ∧ c ≠ 13) = base64Encode b := by
  rw [List.filter_eq_self]
  intro c hc
  simpa using base64Encode_no_newline b c hc

theorem decodeQuanta_base64Encode (b : Bytes) : decodeQuanta (base64Encode b) = .ok b := by
  induction b using base64Encode.induct with
  | case1 a b c rest ih =>
    have ha := a.isLt
    have hb := b.isLt
    have hc := c.isLt
    simp only [base64Encode, decodeQuanta, decodeChar_encodeChar,
      if_neg (encodeChar_ne_pad _), ih]
    have h0 : toByte (((a.val * 65536 + b.val * 256 + c.val) / 262144 % 64 * 262144 +
        (a.val * 65536 + b.val * 256 + c.val) / 4096 % 64 * 4096 +
        (a.val * 65536 + b.val * 256 + c.val) / 64 % 64 * 64 +
        (a.val * 65536 + b.val * 256 + c.val) % 64) / 65536) = a := by
      apply Fin.ext
      simp only [toByte]
      omega
    have h1 : toByte (((a.val * 65536 + b.val * 256 + c.val) / 262144 % 64 * 262144 +
        (a.val * 65536 + b.val * 256 + c.val) / 4096 % 64 * 4096 +
        (a.val * 65536 + b.val * 256 + c.val) / 64 % 64 * 64 +
        (a.val * 65536 + b.val * 256 + c.val) % 64) / 256) = b := by
      apply Fin.ext
      simp only [toByte]
      omega
    have h2 : toByte ((a.val * 65536 + b.val * 256 + c.val) / 262144 % 64 * 262144 +
        (a.val * 65536 + b.val * 256 + c.val) / 4096 % 64 * 4096 +
        (a.val * 65536 + b.val * 256 + c.val) / 64 % 64 * 64 +
        (a.val * 65536 + b.val * 256 + c.val) % 64) = c := by
      apply Fin.ext
      simp only [toByte]
      omega
    rw [h0, h1, h2]
  | case2 a b =>
    have ha := a.isLt
    have hb := b.isLt
    simp only [base64Encode, decodeQuanta, decodeChar_encodeChar,
      if_neg (encodeChar_ne_pad _), if_true]
    have h0 : toByte (((a.val * 65536 + b.val * 256) / 262144 % 64 * 262144 +
        (a.val * 65536 + b.val * 256) / 4096 % 64 * 4096 +
        (a.val * 65536 + b.val * 256) / 64 % 64 * 64) / 65536) = a := by
      apply Fin.ext
      simp only [toByte]
      omega
    have h1 : toByte (((a.val * 65536 + b.val * 256) / 262144 % 64 * 262144 +
        (a.val * 65536 + b.val * 256) / 4096 % 64 * 4096 +
        (a.val * 65536 + b.val * 256) / 64 % 64 * 64) / 256) = b := by
      apply Fin.ext
      simp only [toByte]
      omega
    rw [h0, h1]
  | case3 a =>
    have ha := a.isLt
    simp only [base64Encode, decodeQuanta, decodeChar_encodeChar,
      if_neg (encodeChar_ne_pad _), if_true, and_self]
    have h0 : toByte (((a.val * 65536) / 262144 % 64 * 262144 +
        (a.val * 65536) / 4096 % 64 * 4096) / 65536) = a := by
      apply Fin.ext
      simp only [toByte]
      omega
    rw [h0]
  | case4 => rfl

theorem base64Decode_base64Encode (b : Bytes) : base64Decode (base64Encode b) = .ok b := by
  rw [base64Decode, base64Encode_filter, decodeQuanta_base64Encode]

/-- The runtime decoder inverts the packer's encoder wherever gzip inverts itself. -/
theorem unmarshal_marshal (gz : GzipLib) (b : Bytes)
    (hgz : gz.decompress (gz.compress b) = .ok b) :
    unmarshalBase64Gzip gz (marshalGzipBase64 gz b) = .ok b := by
  simp only [unmarshalBase64Gzip, marshalGzipBase64, base64Decode_base64Encode, hgz]

/-! ## Library facts: the stored-block gzip inverts itself -/

theorem readStoredBlocks_storedBlocks (fuel : Nat) :
    ∀ (b tail : Bytes) (fuel2 : Nat), b.length < fuel → fuel ≤ fuel2 →
      readStoredBlocks fuel2 (storedBlocks fuel b ++ tail) = .ok (b, tail) := by
  induction fuel with
  | zero => intro b tail fuel2 hb; exact absurd hb (Nat.not_lt_zero _)
  | succ n ih =>
    intro b tail fuel2 hb hf
    obtain ⟨m, rfl⟩ : ∃ m, fuel2 = m + 1 := ⟨fuel2 - 1, by omega⟩
    by_cases hlen : b.length ≤ 65535
    · simp only [storedBlocks, if_pos hlen, le16, List.cons_append, List.nil_append,
        List.append_assoc, readStoredBlocks]
      have h1 : ¬ ((1 : Byte).val / 2 % 4 ≠ 0) := by decide
      have h2 : ¬ ((toByte b.length).val + 256 * (toByte (b.length / 256)).val +
          ((toByte (65535 - b.length)).val + 256 * (toByte ((65535 - b.length) / 256)).val)
            ≠ 65535) := by
        simp only [toByte]
        omega
      have h3 : ¬ ((b ++ tail).length <
          (toByte b.length).val + 256 * (toByte (b.length / 256)).val) := by
        simp only [toByte, List.length_append]
        omega
      have h4 : (1 : Byte).val % 2 = 1 := by decide
      have h5 : (toByte b.length).val + 256 * (toByte (b.length / 256)).val = b.length := by
        simp only [toByte]
        omega
      rw [if_neg h1, if_neg h2, if_neg h3, if_pos h4, h5, List.take_left, List.drop_left]
    · have hrec := ih (b.drop 65535) tail m
        (by simp only [List.length_drop]; omega) (by omega)
      simp only [storedBlocks, if_neg hlen, le16, List.cons_append, List.nil_append,
        List.append_assoc, readStoredBlocks]
      have h1 : ¬ ((0 : Byte).val / 2 % 4 ≠ 0) := by decide
      have h2 : ¬ ((toByte 65535).val + 256 * (toByte (65535 / 256)).val +
          ((toByte 0).val + 256 * (toByte (0 / 256)).val) ≠ 65535) := by decide
      have hlt : (b.take 65535).length = 65535 := by
        simp only [List.length_take]
        omega
      have h3 : ¬ ((b.take 65535 ++ (storedBlocks n (b.drop 65535) ++ tail)).length <
          (toByte 65535).val + 256 * (toByte (65535 / 256)).val) := by
        have h6 : (toByte 65535).val + 256 * (toByte (65535 / 256)).val = 65535 := by decide
        rw [h6, List.length_append, hlt]
        omega
      have h4 : ¬ ((0 : Byte).val % 2 = 1) := by decide
      have h5 : (toByte 65535).val + 256 * (toByte (65535 / 256)).val =
          (b.take 65535).length := by
        rw [hlt]
        decide
      rw [if_neg h1, if_neg h2, if_neg h3, if_neg h4, h5, List.take_left, List.drop_left, hrec]
      simp only [List.take_append_drop]

theorem storedBlocks_length (fuel : Nat) :
    ∀ b : Bytes, b.length < fuel → b.length ≤ (storedBlocks fuel b).length := by
  induction fuel with
  | zero => intro b hb; exact absurd hb (Nat.not_lt_zero _)
  | succ n ih =>
    intro b hb
    by_cases hlen : b.length ≤ 65535
    · simp only [storedBlocks, if_pos hlen, le16, List.length_cons, List.length_append,
        List.length_nil]
      omega
    · have hrec := ih (b.drop 65535) (by simp only [List.length_drop]; omega)
      simp only [List.length_drop] at hrec
      simp only [storedBlocks, if_neg hlen, le16, List.length_cons, List.length_append,
        List.length_nil, List.length_take]
      omega

theorem storedGzip_inverts (b : Bytes) :
    storedGzip.decompress (storedGzip.compress b) = .ok b := by
  have hfuel : b.length + 1 ≤
      (storedBlocks (b.length + 1) b ++ (le32 (crc32 b) ++ le32 b.length)).length + 1 := by
    have := storedBlocks_length (b.length + 1) b (Nat.lt_succ_self _)
    rw [List.length_append]
    omega
  have hread := readStoredBlocks_storedBlocks (b.length + 1) b
    (le32 (crc32 b) ++ le32 b.length) _ (Nat.lt_succ_self _) hfuel
  have h1 : ¬ ((0x1f : Byte) ≠ 0x1f ∨ (0x8b : Byte) ≠ 0x8b ∨ (8 : Byte) ≠ 8 ∨
      (0 : Byte) ≠ 0) := by decide
  have h2 : ¬ ((le32 (crc32 b) ++ le32 b.length).length < 8) := by
    simp [le32]
  simp only [storedGzip, gzipHeader, List.cons_append, List.nil_append, List.append_assoc,
    if_neg h1, hread, if_neg h2, if_true]

/-! ## Facts about the store -/

theorem filemapGet_filemapSet_self (m : List (String × embedFileInfo)) (k : String)
    (v w : embedFileInfo) (h : filemapGet m k = some v) :
    filemapGet (filemapSet m k w) k = some w := by
  induction m with
  | nil => simp [filemapGet] at h
  | cons e rest ih =>
    obtain ⟨k0, v0⟩ := e
    by_cases hk : k0 = k
    · simp [filemapSet, filemapGet, hk]
    · simp only [filemapGet, if_neg hk] at h
      simp only [filemapSet, if_neg hk, filemapGet]
      exact ih h

theorem filemapGet_filemapSet_ne (m : List (String × embedFileInfo)) (k q : String)
    (w : embedFileInfo) (h : q ≠ k) :
    filemapGet (filemapSet m k w) q = filemapGet m q := by
  induction m with
  | nil => rfl
  | cons e rest ih =>
    obtain ⟨k0, v0⟩ := e
    by_cases hk : k0 = k
    · have hq : ¬ k0 = q := fun h2 => h (h2.symm.trans hk)
      simp [filemapSet, filemapGet, hk, hq, hk ▸ hq]
    · by_cases hq : k0 = q
      · simp only [filemapSet, if_neg hk, filemapGet, if_pos hq]
      · simp only [filemapSet, if_neg hk, filemapGet, if_neg hq]
        exact ih

theorem filemapSet_keys (m : List (String × embedFileInfo)) (k : String) (w : embedFileInfo) :
    (filemapSet m k w).map Prod.fst = m.map Prod.fst := by
  induction m with
  | nil => rfl
  | cons e rest ih =>
    obtain ⟨k0, v0⟩ := e
    by_cases hk : k0 = k
    · simp [filemapSet, hk]
    · simp [filemapSet, hk, ih]

/-! ## The operations, case by case (embedded mode) -/

theorem EmbedReadFile_decoded (gz : GzipLib) (st : Runtime) (p : String) (fi : embedFileInfo)
    (hmode : st.embedLocalMode = false) (hget : filemapGet st.embedFilemap p = some fi)
    (hfile : fi.isDir = false) (hdec : fi.decoded = true) :
    EmbedReadFile gz st p = (.ok fi.data, st) := by
  simp [EmbedReadFile, hmode, hget, hfile, hdec]

theorem EmbedReadFile_undecoded (gz : GzipLib) (st : Runtime) (p : String) (fi : embedFileInfo)
    (hmode : st.embedLocalMode = false) (hget : filemapGet st.embedFilemap p = some fi)
    (hfile : fi.isDir = false) (hdec : fi.decoded = false) :
    EmbedReadFile gz st p =
      (unmarshalBase64Gzip gz fi.data, { st with decodeRuns := st.decodeRuns + 1 }) := by
  simp [EmbedReadFile, hmode, hget, hfile, hdec]

theorem EmbedWriteFile_decoded (gz : GzipLib) (st : Runtime) (p : String) (fi : embedFileInfo)
    (b : Bytes)
    (hmode : st.embedLocalMode = false) (hget : filemapGet st.embedFilemap p = some fi)
    (hfile : fi.isDir = false) (hdec : fi.decoded = true) :
    EmbedWriteFile gz st p b =
      (none, { st with
        embedFilemap := filemapSet st.embedFilemap p { fi with data := b, decoded := true } }) := by
  simp [EmbedWriteFile, hmode, hget, hfile, hdec]

theorem EmbedWriteFile_undecoded (gz : GzipLib) (st : Runtime) (p : String) (fi : embedFileInfo)
    (b : Bytes)
    (hmode : st.embedLocalMode = false) (hget : filemapGet st.embedFilemap p = some fi)
    (hfile : fi.isDir = false) (hdec : fi.decoded = false) :
    EmbedWriteFile gz st p b =
      (none, { st with
        embedFilemap := filemapSet st.embedFilemap p
          { fi with data := marshalGzipBase64 gz b, decoded := false },
        encodeRuns := st.encodeRuns + 1 }) := by
  simp [EmbedWriteFile, hmode, hget, hfile, hdec]

theorem Open_undecoded_ok (gz : GzipLib) (st : Runtime) (p : String) (fi : embedFileInfo)
    (raw : Bytes)
    (hmode : st.embedLocalMode = false) (hget : filemapGet st.embedFilemap p = some fi)
    (hfile : fi.isDir = false) (hdec : fi.decoded = false)
    (hraw : unmarshalBase64Gzip gz fi.data = .ok raw) :
    Open gz st p =
      (.ok (.embed { reader := { s := raw, i := 0 },
                     info := { fi with data := raw, decoded := true } }),
        { st with
          embedFilemap := filemapSet st.embedFilemap p { fi with data := raw, decoded := true },
          decodeRuns := st.decodeRuns + 1 }) := by
  simp [Open, hmode, hget, hfile, hdec, hraw]

theorem Open_undecoded_error (gz : GzipLib) (st : Runtime) (p : String) (fi : embedFileInfo)
    (e : EmbedError)
    (hmode : st.embedLocalMode = false) (hget : filemapGet st.embedFilemap p = some fi)
    (hfile : fi.isDir = false) (hdec : fi.decoded = false)
    (hraw : unmarshalBase64Gzip gz fi.data = .error e) :
    Open gz st p = (.error e, { st with decodeRuns := st.decodeRuns + 1 }) := by
  simp [Open, hmode, hget, hfile, hdec, hraw]

theorem Open_decoded (gz : GzipLib) (st : Runtime) (p : String) (fi : embedFileInfo)
    (hmode : st.embedLocalMode = false) (hget : filemapGet st.embedFilemap p = some fi)
    (hdec : fi.decoded = true) :
    Open gz st p = (.ok (.embed { reader := { s := fi.data, i := 0 }, info := fi }), st) := by
  simp [Open, hmode, hget, hdec]

theorem Open_missing (gz : GzipLib) (st : Runtime) (p : String)
    (hmode : st.embedLocalMode = false) (hget : filemapGet st.embedFilemap p = none) :
    Open gz st p = (.error .osErrNotExist, st) := by
  simp [Open, hmode, hget]

/-! ## Codec -/

/-- C1. Codec round trip: for every byte sequence `b` on which the gzip library inverts
itself, the runtime decoder (base64 decode, then gunzip) applied to the token that
`marshalGzipBase64` produces for `b` succeeds and returns exactly `b`; hence, for a record
loaded with that token, `EmbedReadFile` returns `b` and `Open` returns a handle over `b` at
offset 0. -/
theorem codec_round_trip (gz : GzipLib) (b : Bytes)
    (hgz : gz.decompress (gz.compress b) = .ok b) :
    unmarshalBase64Gzip gz (marshalGzipBase64 gz b) = .ok b ∧
    ∀ (st : Runtime) (p : String) (fi : embedFileInfo),
      st.embedLocalMode = false → filemapGet st.embedFilemap p = some fi →
      fi.isDir = false → fi.decoded = false → fi.data = marshalGzipBase64 gz b →
      (EmbedReadFile gz st p).1 = .ok b ∧
      (Open gz st p).1 =
        .ok (.embed { reader := { s := b, i := 0 }, info := { fi with data := b, decoded := true } }) := by
  have hrt := unmarshal_marshal gz b hgz
  refine ⟨hrt, ?_⟩
  intro st p fi hmode hget hfile hdec hdata
  rw [← hdata] at hrt
  constructor
  · rw [EmbedReadFile_undecoded gz st p fi hmode hget hfile hdec]
    exact hrt
  · rw [Open_undecoded_ok gz st p fi b hmode hget hfile hdec hrt]

/-- C1, at the stored-block gzip, for the empty input and for a byte sequence with NULs. -/
theorem codec_round_trip_witness :
    (storedGzip.decompress (storedGzip.compress []) = .ok [] ∧
      unmarshalBase64Gzip storedGzip (marshalGzipBase64 storedGzip []) = .ok []) ∧
    (storedGzip.decompress (storedGzip.compress binaryBytes) = .ok binaryBytes ∧
      unmarshalBase64Gzip storedGzip (marshalGzipBase64 storedGzip binaryBytes) =
        .ok binaryBytes) :=
  ⟨⟨storedGzip_inverts [], (codec_round_trip storedGzip [] (storedGzip_inverts [])).1⟩,
    ⟨storedGzip_inverts binaryBytes,
      (codec_round_trip storedGzip binaryBytes (storedGzip_inverts binaryBytes)).1⟩⟩

/-! ## Write and read -/

/-- C3. Write then read: in embedded mode, for every path `p` whose record is a file, in either
decoded state, and every `newBytes` on which gzip inverts itself, `EmbedWriteFile` returns no
error and the `EmbedReadFile` that follows returns exactly `newBytes`. -/
theorem write_then_read (gz : GzipLib) (st : Runtime) (p : String) (fi : embedFileInfo)
    (newBytes : Bytes)
    (hmode : st.embedLocalMode = false)
    (hget : filemapGet st.embedFilemap p = some fi)
    (hfile : fi.isDir = false)
    (hgz : gz.decompress (gz.compress newBytes) = .ok newBytes) :
    (EmbedWriteFile gz st p newBytes).1 = none ∧
    (EmbedReadFile gz (EmbedWriteFile gz st p newBytes).2 p).1 = .ok newBytes := by
  cases hdec : fi.decoded
  · rw [EmbedWriteFile_undecoded gz st p fi newBytes hmode hget hfile hdec]
    refine ⟨rfl, ?_⟩
    dsimp only
    refine Eq.trans (congrArg Prod.fst (EmbedReadFile_undecoded gz _ p
      { fi with data := marshalGzipBase64 gz newBytes, decoded := false } ?_ ?_ ?_ ?_)) ?_
    · exact hmode
    · exact filemapGet_filemapSet_self _ p fi _ hget
    · exact hfile
    · rfl
    · exact unmarshal_marshal gz newBytes hgz
  · rw [EmbedWriteFile_decoded gz st p fi newBytes hmode hget hfile hdec]
    refine ⟨rfl, ?_⟩
    dsimp only
    refine Eq.trans (congrArg Prod.fst (EmbedReadFile_decoded gz _ p
      { fi with data := newBytes, decoded := true } ?_ ?_ ?_ ?_)) ?_
    · exact hmode
    · exact filemapGet_filemapSet_self _ p fi _ hget
    · exact hfile
    · rfl
    · rfl

/-- C3, at the undecoded record `/a.txt` of the sample runtime. -/
theorem write_then_read_witness :
    (EmbedWriteFile storedGzip sampleRuntime "/a.txt" binaryBytes).1 = none ∧
    (EmbedReadFile storedGzip (EmbedWriteFile storedGzip sampleRuntime "/a.txt" binaryBytes).2
      "/a.txt").1 = .ok binaryBytes :=
  write_then_read storedGzip sampleRuntime "/a.txt" helloRecord binaryBytes
    rfl rfl rfl (storedGzip_inverts binaryBytes)

/-- C4, refuted as stated: writing `hi` to the undecoded record `/a.txt` leaves `decoded` false,
stores the gzip+base64 token of `hi` rather than `hi`, and enters the encoding block once. -/
theorem writeFile_undecoded_reencodes :
    filemapGet (EmbedWriteFile storedGzip sampleRuntime "/a.txt" [104, 105]).2.embedFilemap
        "/a.txt" =
      some { helloRecord with data := marshalGzipBase64 storedGzip [104, 105], decoded := false } ∧
    marshalGzipBase64 storedGzip [104, 105] ≠ [104, 105] ∧
    (EmbedWriteFile storedGzip sampleRuntime "/a.txt" [104, 105]).2.encodeRuns = 1 := by
  decide

/-- C4, amended. In embedded mode, for every path `p` whose record is a file and every `b`:
if the record is decoded, `EmbedWriteFile` stores the raw bytes `b`, leaves `decoded` true and
does not enter the encoding block; if the record is not decoded, it stores the gzip+base64
token of `b`, leaves `decoded` false and enters the encoding block once.  No other field of the
record changes. -/
theorem writeFile_post_state (gz : GzipLib) (st : Runtime) (p : String) (fi : embedFileInfo)
    (b : Bytes)
    (hmode : st.embedLocalMode = false)
    (hget : filemapGet st.embedFilemap p = some fi)
    (hfile : fi.isDir = false) :
    (fi.decoded = true →
      filemapGet (EmbedWriteFile gz st p b).2.embedFilemap p =
        some { fi with data := b, decoded := true } ∧
      (EmbedWriteFile gz st p b).2.encodeRuns = st.encodeRuns) ∧
    (fi.decoded = false →
      filemapGet (EmbedWriteFile gz st p b).2.embedFilemap p =
        some { fi with data := marshalGzipBase64 gz b, decoded := false } ∧
      (EmbedWriteFile gz st p b).2.encodeRuns = st.encodeRuns + 1) := by
  constructor
  · intro hdec
    rw [EmbedWriteFile_decoded gz st p fi b hmode hget hfile hdec]
    exact ⟨filemapGet_filemapSet_self _ p fi _ hget, rfl⟩
  · intro hdec
    rw [EmbedWriteFile_undecoded gz st p fi b hmode hget hfile hdec]
    exact ⟨filemapGet_filemapSet_self _ p fi _ hget, rfl⟩

/-- C4 amended, at the undecoded record `/a.txt` of the sample runtime. -/
theorem writeFile_post_state_witness :
    filemapGet (EmbedWriteFile storedGzip sampleRuntime "/a.txt" binaryBytes).2.embedFilemap
        "/a.txt" =
      some { helloRecord with data := marshalGzipBase64 storedGzip binaryBytes, decoded := false } ∧
    (EmbedWriteFile storedGzip sampleRuntime "/a.txt" binaryBytes).2.encodeRuns =
      sampleRuntime.encodeRuns + 1 :=
  (writeFile_post_state storedGzip sampleRuntime "/a.txt" helloRecord binaryBytes
    rfl rfl rfl).2 rfl

/-! ## Open -/

/-- C5. Open materialises atomically: in embedded mode, for every path `p` whose record is a
file with `decoded = false`: if decoding its data gives `raw`, then `Open` returns an embedded
handle whose reader holds `raw` at offset 0 (a read of `n` bytes from it gives the first `n`
bytes of `raw`), and afterwards the record has `data = raw` and `decoded = true`; if decoding
fails with `e`, then `Open` returns `e` and no handle, and the store, the mode switch and the
real filesystem are as before the call. -/
theorem open_materialises (gz : GzipLib) (st : Runtime) (p : String) (fi : embedFileInfo)
    (hmode : st.embedLocalMode = false)
    (hget : filemapGet st.embedFilemap p = some fi)
    (hfile : fi.isDir = false) (hdec : fi.decoded = false) :
    (∀ raw, unmarshalBase64Gzip gz fi.data = .ok raw →
      (∃ h : embedFile, (Open gz st p).1 = .ok (.embed h) ∧
        h.reader = { s := raw, i := 0 } ∧
        (∀ n, raw ≠ [] → (h.Read n).1 = some (raw.take n))) ∧
      filemapGet (Open gz st p).2.embedFilemap p =
        some { fi with data := raw, decoded := true }) ∧
    (∀ e, unmarshalBase64Gzip gz fi.data = .error e →
      (Open gz st p).1 = .error e ∧
      (Open gz st p).2.embedFilemap = st.embedFilemap ∧
      (Open gz st p).2.embedLocalMode = st.embedLocalMode ∧
      (Open gz st p).2.embedLocalDir = st.embedLocalDir ∧
      (Open gz st p).2.disk = st.disk) := by
  constructor
  · intro raw hraw
    rw [Open_undecoded_ok gz st p fi raw hmode hget hfile hdec hraw]
    refine ⟨⟨_, rfl, rfl, ?_⟩, filemapGet_filemapSet_self _ p fi _ hget⟩
    intro n hne
    have hlen : ¬ raw.length ≤ 0 := by
      cases raw with
      | nil => exact absurd rfl hne
      | cons a t => simp
    simp only [embedFile.Read, if_neg hlen, List.drop_zero]
  · intro e herr
    rw [Open_undecoded_error gz st p fi e hmode hget hfile hdec herr]
    exact ⟨rfl, rfl, rfl, rfl, rfl⟩

/-- C5, at the undecoded record `/a.txt` of the sample runtime, whose token decodes to
`hello`. -/
theorem open_materialises_witness :
    (∃ h : embedFile, (Open storedGzip sampleRuntime "/a.txt").1 = .ok (.embed h) ∧
      h.reader = { s := helloBytes, i := 0 } ∧
      (∀ n, helloBytes ≠ [] → (h.Read n).1 = some (helloBytes.take n))) ∧
    filemapGet (Open storedGzip sampleRuntime "/a.txt").2.embedFilemap "/a.txt" =
      some { helloRecord with data := helloBytes, decoded := true } :=
  (open_materialises storedGzip sampleRuntime "/a.txt" helloRecord rfl rfl rfl rfl).1
    helloBytes (by decide)

/-- C6, refuted as stated: two `EmbedReadFile` calls on the undecoded record `/a.txt` both
return `hello`, and the second call enters the decoding block again (the count goes from 1
to 2); the record is still undecoded afterwards. -/
theorem readFile_decodes_every_time :
    (EmbedReadFile storedGzip sampleRuntime "/a.txt").1 = .ok helloBytes ∧
    (EmbedReadFile storedGzip (EmbedReadFile storedGzip sampleRuntime "/a.txt").2 "/a.txt").1 =
      .ok helloBytes ∧
    (EmbedReadFile storedGzip sampleRuntime "/a.txt").2.decodeRuns = 1 ∧
    (EmbedReadFile storedGzip (EmbedReadFile storedGzip sampleRuntime "/a.txt").2
      "/a.txt").2.decodeRuns = 2 ∧
    (EmbedReadFile storedGzip (EmbedReadFile storedGzip sampleRuntime "/a.txt").2
      "/a.txt").2.embedFilemap = sampleRuntime.embedFilemap := by
  decide

/-- C6, amended. In embedded mode, for every file path `p` whose undecoded payload decodes to
`raw`: two `Open` calls both return a handle over `raw` at offset 0 and the second one does not
enter the decoding block; two `EmbedReadFile` calls both return `raw`, but `EmbedReadFile`
never stores what it decoded, so each of the two calls enters the decoding block once; an
`EmbedReadFile` after an `Open` returns `raw` without decoding. -/
theorem idempotent_decode (gz : GzipLib) (st : Runtime) (p : String) (fi : embedFileInfo)
    (raw : Bytes)
    (hmode : st.embedLocalMode = false)
    (hget : filemapGet st.embedFilemap p = some fi)
    (hfile : fi.isDir = false) (hdec : fi.decoded = false)
    (hraw : unmarshalBase64Gzip gz fi.data = .ok raw) :
    ((Open gz st p).1 =
        .ok (.embed { reader := { s := raw, i := 0 },
                      info := { fi with data := raw, decoded := true } }) ∧
      (Open gz (Open gz st p).2 p).1 = (Open gz st p).1 ∧
      (Open gz st p).2.decodeRuns = st.decodeRuns + 1 ∧
      (Open gz (Open gz st p).2 p).2.decodeRuns = (Open gz st p).2.decodeRuns) ∧
    ((EmbedReadFile gz st p).1 = .ok raw ∧
      (EmbedReadFile gz (EmbedReadFile gz st p).2 p).1 = .ok raw ∧
      (EmbedReadFile gz st p).2.decodeRuns = st.decodeRuns + 1 ∧
      (EmbedReadFile gz (EmbedReadFile gz st p).2 p).2.decodeRuns = st.decodeRuns + 2) ∧
    EmbedReadFile gz (Open gz st p).2 p = (.ok raw, (Open gz st p).2) := by
  have hopen := Open_undecoded_ok gz st p fi raw hmode hget hfile hdec hraw
  have hread := EmbedReadFile_undecoded gz st p fi hmode hget hfile hdec
  have hget2 : filemapGet (Open gz st p).2.embedFilemap p =
      some { fi with data := raw, decoded := true } := by
    rw [hopen]
    exact filemapGet_filemapSet_self _ p fi _ hget
  have hmode2 : (Open gz st p).2.embedLocalMode = false := by
    rw [hopen]
    exact hmode
  have hopen2 := Open_decoded gz (Open gz st p).2 p _ hmode2 hget2 rfl
  have hread2 := EmbedReadFile_decoded gz (Open gz st p).2 p _ hmode2 hget2 hfile rfl
  have hget3 : filemapGet (EmbedReadFile gz st p).2.embedFilemap p = some fi := by
    rw [hread]
    exact hget
  have hmode3 : (EmbedReadFile gz st p).2.embedLocalMode = false := by
    rw [hread]
    exact hmode
  have hread3 := EmbedReadFile_undecoded gz (EmbedReadFile gz st p).2 p fi hmode3 hget3 hfile hdec
  refine ⟨⟨?_, ?_, ?_, ?_⟩, ⟨?_, ?_, ?_, ?_⟩, hread2⟩
  · rw [hopen]
  · rw [hopen2]
    rw [hopen]
  · rw [hopen]
  · rw [hopen2]
  · rw [hread]
    exact hraw
  · rw [hread3]
    exact hraw
  · rw [hread]
  · rw [hread3, hread]

/-- C6 amended, at the undecoded record `/a.txt` of the sample runtime. -/
theorem idempotent_decode_witness :
    (Open storedGzip (Open storedGzip sampleRuntime "/a.txt").2 "/a.txt").1 =
      (Open storedGzip sampleRuntime "/a.txt").1 ∧
    (Open storedGzip (Open storedGzip sampleRuntime "/a.txt").2 "/a.txt").2.decodeRuns =
      (Open storedGzip sampleRuntime "/a.txt").2.decodeRuns ∧
    (EmbedReadFile storedGzip (EmbedReadFile storedGzip sampleRuntime "/a.txt").2
      "/a.txt").2.decodeRuns = sampleRuntime.decodeRuns + 2 :=
  have h := idempotent_decode storedGzip sampleRuntime "/a.txt" helloRecord helloBytes
    rfl rfl rfl rfl (by decide)
  ⟨h.1.2.1, h.1.2.2.2, h.2.1.2.2.2⟩

/-- C7, refuted as stated: in embedded mode `Open` of a path that is not in the store fails
with `os.ErrNotExist`, which is not the `EmbedErrNotExist` that `EmbedReadFile` and
`EmbedWriteFile` return for the same path. -/
theorem open_missing_is_os_error :
    (Open storedGzip sampleRuntime "/does/not/exist").1 = .error .osErrNotExist ∧
    (Open storedGzip sampleRuntime "/does/not/exist").1 ≠ .error .EmbedErrNotExist ∧
    (EmbedReadFile storedGzip sampleRuntime "/does/not/exist").1 = .error .EmbedErrNotExist ∧
    (EmbedWriteFile storedGzip sampleRuntime "/does/not/exist" helloBytes).1 =
      some .EmbedErrNotExist := by
  decide

/-- C7, amended. In embedded mode, for every path that is not a key of the store, `Open`
returns no handle and fails with the standard library's `os.ErrNotExist`, leaving the whole
state unchanged; `EmbedReadFile` and `EmbedWriteFile` fail for the same path with the
runtime's own `EmbedErrNotExist`, a different error value, and leave the state unchanged
too. -/
theorem missing_path_errors (gz : GzipLib) (st : Runtime) (p : String) (b : Bytes)
    (hmode : st.embedLocalMode = false)
    (hget : filemapGet st.embedFilemap p = none) :
    Open gz st p = (.error .osErrNotExist, st) ∧
    EmbedReadFile gz st p = (.error .EmbedErrNotExist, st) ∧
    EmbedWriteFile gz st p b = (some .EmbedErrNotExist, st) ∧
    EmbedError.osErrNotExist ≠ EmbedError.EmbedErrNotExist := by
  refine ⟨Open_missing gz st p hmode hget, ?_, ?_, ?_⟩
  · simp [EmbedReadFile, hmode, hget]
  · simp [EmbedWriteFile, hmode, hget]
  · decide

/-- C7 amended, at a path missing from the sample runtime. -/
theorem missing_path_errors_witness :
    Open storedGzip sampleRuntime "/does/not/exist" = (.error .osErrNotExist, sampleRuntime) ∧
    EmbedReadFile storedGzip sampleRuntime "/does/not/exist" =
      (.error .EmbedErrNotExist, sampleRuntime) :=
  have h := missing_path_errors storedGzip sampleRuntime "/does/not/exist" [] rfl rfl
  ⟨h.1, h.2.1⟩

/-! ## Store invariant -/

theorem run_store_cases (gz : GzipLib) (st : Runtime) (c : Call) :
    (c.run gz st).embedFilemap = st.embedFilemap ∨
    ∃ p fi d dec, c.target = some p ∧ filemapGet st.embedFilemap p = some fi ∧
      (c.run gz st).embedFilemap =
        filemapSet st.embedFilemap p { fi with data := d, decoded := dec } := by
  cases c with
  | openFile name =>
    simp only [Call.run, Call.target, Open]
    split
    · exact Or.inl rfl
    · split
      · exact Or.inl rfl
      · rename_i f hget
        split
        · split
          · exact Or.inl rfl
          · rename_i raw hraw
            exact Or.inr ⟨name, f, raw, true, rfl, hget, rfl⟩
        · exact Or.inl rfl
  | readFile path =>
    left
    simp only [Call.run, EmbedReadFile]
    split
    · rfl
    · split
      · rfl
      · split
        · rfl
        · split <;> rfl
  | writeFile filename data =>
    simp only [Call.run, Call.target, EmbedWriteFile]
    split
    · exact Or.inl rfl
    · split
      · exact Or.inl rfl
      · rename_i fi hget
        split
        · exact Or.inl rfl
        · split
          · rename_i hdec
            refine Or.inr ⟨filename, fi, data, fi.decoded, rfl, hget, rfl⟩
          · exact Or.inr ⟨filename, fi, marshalGzipBase64 gz data, false, rfl, hget, rfl⟩
  | setLocal path =>
    left
    simp only [Call.run, EmbedSetLocal]
    split <;> rfl

/-- C8. Store invariant: for every state and every call of `Open`, `EmbedReadFile`,
`EmbedWriteFile` or `EmbedSetLocal` with any arguments (in either mode), the keys of the store
after the call are the keys before it, every record keeps its `path`, `name`, `size`, `mode`
and `isDir`, and a record other than the one the call addresses is unchanged altogether; so
only `data` and `decoded` of the addressed record can differ, and `EmbedWriteFile` never
updates `size`. -/
theorem store_invariant (gz : GzipLib) (st : Runtime) (c : Call) :
    (c.run gz st).embedFilemap.map Prod.fst = st.embedFilemap.map Prod.fst ∧
    ∀ q fi, filemapGet st.embedFilemap q = some fi →
      ∃ fi2, filemapGet (c.run gz st).embedFilemap q = some fi2 ∧
        fi2.path = fi.path ∧ fi2.name = fi.name ∧ fi2.size = fi.size ∧
        fi2.mode = fi.mode ∧ fi2.isDir = fi.isDir ∧
        (c.target ≠ some q → fi2 = fi) := by
  rcases run_store_cases gz st c with h | ⟨p, fi0, d, dec, htgt, hget0, h⟩
  · rw [h]
    exact ⟨rfl, fun q fi hq => ⟨fi, hq, rfl, rfl, rfl, rfl, rfl, fun _ => rfl⟩⟩
  · rw [h]
    refine ⟨filemapSet_keys _ _ _, ?_⟩
    intro q fi hq
    by_cases hqp : q = p
    · subst hqp
      rw [hget0] at hq
      cases hq
      exact ⟨_, filemapGet_filemapSet_self _ q fi0 _ hget0, rfl, rfl, rfl, rfl, rfl,
        fun hne => absurd htgt hne⟩
    · rw [filemapGet_filemapSet_ne _ p q _ hqp]
      exact ⟨fi, hq, rfl, rfl, rfl, rfl, rfl, fun _ => rfl⟩

/-! ## Mode switch -/

/-- C2, at a failing input: after `EmbedSetLocal("/srv")`, with the real file `/srv/a.txt`
holding `local`, `Open("/a.txt")` opens `/srv/a.txt`, but `EmbedReadFile("/a.txt")` reads the
real path `/a.txt` as given, without the root: it fails when nothing is there and returns that
other file when something is.  After `EmbedSetLocal("")` the same call returns the embedded
`hello`. -/
theorem readFile_local_ignores_root :
    (Open storedGzip (EmbedSetLocal sampleRuntime "/srv") "/a.txt").1 =
      .ok (.osFile "/srv/a.txt" localBytes) ∧
    (EmbedReadFile storedGzip (EmbedSetLocal sampleRuntime "/srv") "/a.txt").1 =
      .error (.osPathErrNotExist "/a.txt") ∧
    (EmbedReadFile storedGzip
      (EmbedSetLocal { sampleRuntime with disk := ("/a.txt", binaryBytes) :: sampleRuntime.disk }
        "/srv") "/a.txt").1 = .ok binaryBytes ∧
    (EmbedReadFile storedGzip (EmbedSetLocal (EmbedSetLocal sampleRuntime "/srv") "")
      "/a.txt").1 = .ok helloBytes := by
  decide

/-! ## Packer -/

/-- C9, at failing inputs: with root `/a`, the entry `/a/b/a/c` gets the key `/b/c` (not
`/b/a/c`), the same key as the entry `/a/b/c`; the entry `/a/a` gets the key `/`, the key of
the root itself; with root `/w`, the entry `/w/img/water.png` gets the key `/img/ater.png`. -/
theorem finalPath_replaces_every_occurrence :
    finalPath "/a" ("/a" ++ "/" ++ "b/a/c") ≠ "/" ++ "b/a/c" ∧
    finalPath "/a" "/a/b/a/c" = "/b/c" ∧
    finalPath "/a" "/a/b/c" = "/b/c" ∧
    finalPath "/a" "/a/a" = "/" ∧
    finalPath "/a" "/a" = "/" ∧
    finalPath "/w" "/w/img/water.png" = "/img/ater.png" := by
  decide

/-- C10, at a failing input: walking `/r` = { `embed.go`, `sub/embed.go` } for the target
`embed.go`, the packer emits records for `/` and `/sub` only; `sub/embed.go`, which is not the
target file, gets no record because its base name equals the target name. -/
theorem packer_skips_every_same_named_entry :
    (packer storedGzip true "/r" "embed.go" sampleWalk).map (fun r => r.FilePath) =
      ["/", "/sub"] ∧
    walkFn storedGzip "/r" "embed.go"
      { fpath := "/r/sub/embed.go",
        info := { name := "embed.go", size := 5, mode := 420, isDir := false },
        content := localBytes } = none := by
  decide

end Embed
